import Mathlib

/-!
# Verification of the clipboard-sanitizer URL engine

Shallow embedding of the URL normalization and tracking-parameter-stripping
engine of `src/main.rs` (clipboard-sanitizer).  A `url::Url` value is embedded
as a record of its scheme, optional host, path, and optional ordered list of
decoded query key-value pairs; `none` for `query` models a URL whose string
form has no `?` component, `some []` models a bare trailing `?`.

The clipboard, the `url` crate's parser, and the configuration file are
external collaborators; the configuration lookup for `YOUTUBE_PREFIXES` is
passed in as an `Option String` parameter, and `parse_url`'s clipboard
read / `Url::parse` composite outcome is passed in as an `Option URL`.
Character-level string operations (`starts_with`, `strip_prefix`,
`split('/')`) are embedded over `String.data` (lists of characters).
-/

set_option autoImplicit false
set_option linter.unusedVariables false

structure URL where
  scheme : String
  host : Option String
  path : String
  query : Option (List (String × String))
  deriving DecidableEq, Repr

/-- The ordered query pairs of a URL (`url.query_pairs()` in the source);
a URL with no query component yields the empty list. -/
def queryPairs (u : URL) : List (String × String) := u.query.getD []

/-- `Url::domain()`: the host, when present and non-empty (the `url` crate
never exposes an empty domain string). -/
def URL.domain (u : URL) : Option String :=
  match u.host with
  | none => none
  | some h => if h = "" then none else some h

/-- `YOUTUBE_TRACKING_PARAMS` constant of the source. -/
def YOUTUBE_TRACKING_PARAMS : List String := ["si"]

/-- `COMMON_TRACKING_PARAMS` constant of the source. -/
def COMMON_TRACKING_PARAMS : List String :=
  ["utm_source", "utm_medium", "utm_campaign", "utm_term", "utm_content"]

/-- `strip_params`: clone the URL, clear its query pairs, re-append every
pair whose key is not in `strip`, and drop the query component entirely when
no pair survives. -/
def strip_params (url : URL) (strip : List String) : URL :=
  let kept := (queryPairs url).filter fun p => !(strip.contains p.1)
  if kept = [] then { url with query := none } else { url with query := some kept }

/-- `get_query_value`: the value of the first query pair whose key is `var`. -/
def get_query_value (url : URL) (var : String) : Option String :=
  ((queryPairs url).find? fun p => p.1 == var).map fun p => p.2

/-- Split a character list at the first occurrence of `c`: the part before,
and (when `c` occurs) the part after. -/
def splitAtFirst (c : Char) : List Char → List Char × Option (List Char)
  | [] => ([], none)
  | x :: xs =>
    if x = c then ([], some xs)
    else
      let r := splitAtFirst c xs
      (x :: r.1, r.2)

/-- Split a character list at every occurrence of `c` (Rust's `split(c)`). -/
def splitAll (c : Char) : List Char → List (List Char)
  | [] => [[]]
  | x :: xs =>
    if x = c then [] :: splitAll c xs
    else
      match splitAll c xs with
      | [] => [[x]]
      | a :: rest => (x :: a) :: rest

/-- `enabled_prefixes`: the configured `YOUTUBE_PREFIXES` comma-separated
value, each token wrapped as `/token/`; absent or empty configuration gives
no prefixes. -/
def enabled_prefixes (cfg : Option String) : List String :=
  match cfg with
  | none => []
  | some csv =>
    if csv = "" then []
    else (splitAll ',' csv.data).map fun t => "/" ++ (⟨t⟩ : String) ++ "/"

/-- `map_youtube_prefix`: when the URL's path starts with `pre`, rewrite the
host to `youtu.be` and the path to `/` followed by the path segment right
after the prefix, up to (not including) the next `/`
(`path.strip_prefix(pre).split('/').next()` in the source). -/
def map_youtube_prefix (url : URL) (pre : String) : Option URL :=
  if pre.data.isPrefixOf url.path.data then
    let video_id : String := ⟨(splitAtFirst '/' (url.path.data.drop pre.length)).1⟩
    some { url with host := some "youtu.be", path := "/" ++ video_id }
  else none

/-- The `for prefix in prefixes` loop of `strip_full_youtube`: the first
configured prefix that matches wins. -/
def find_prefix_match (url : URL) : List String → Option URL
  | [] => none
  | p :: rest =>
    match map_youtube_prefix url p with
    | some v => some v
    | none => find_prefix_match url rest

/-- Termination measure for the mutual recursion of `strip_tracking` and
`strip_full_youtube`: only the two full-YouTube hosts can re-dispatch, and
the re-dispatch always lands on host `youtu.be`. -/
def ytDepth (u : URL) : Nat :=
  match URL.domain u with
  | some d => if d = "www.youtube.com" ∨ d = "youtube.com" then 1 else 0
  | none => 0

mutual

/-- `strip_tracking`: dispatch on `url.domain().unwrap()`; `none` models the
panic when the URL has no domain. -/
def strip_tracking (cfg : Option String) (url : URL) : Option URL :=
  match hd : URL.domain url with
  | none => none
  | some d =>
    if h1 : d = "www.youtube.com" then strip_full_youtube cfg url
    else if h2 : d = "youtube.com" then strip_full_youtube cfg url
    else if d = "youtu.be" then some (strip_params url YOUTUBE_TRACKING_PARAMS)
    else if d = "music.youtube.com" then some (strip_params url YOUTUBE_TRACKING_PARAMS)
    else some (strip_params url COMMON_TRACKING_PARAMS)
termination_by 2 * ytDepth url + 1
decreasing_by
  · have hz : ytDepth url = 1 := by simp [ytDepth, hd, h1]
    omega
  · have hz : ytDepth url = 1 := by simp [ytDepth, hd, h2]
    omega

/-- `strip_full_youtube`: try each configured path prefix in order and
re-dispatch on a match; otherwise extract the `v` query parameter as the
video id, rewriting to `youtu.be` and stripping `si` and `v`; otherwise
strip `si` only. -/
def strip_full_youtube (cfg : Option String) (url : URL) : Option URL :=
  match hm : find_prefix_match url (enabled_prefixes cfg) with
  | some new_url => strip_tracking cfg new_url
  | none =>
    match get_query_value url "v" with
    | some video_id =>
      some (strip_params { url with host := some "youtu.be", path := "/" ++ video_id }
        (YOUTUBE_TRACKING_PARAMS ++ ["v"]))
    | none => some (strip_params url YOUTUBE_TRACKING_PARAMS)
termination_by 2
decreasing_by
  · have hh : new_url.host = some "youtu.be" := by
      have hgen : ∀ (ps : List String) (v : URL),
          find_prefix_match url ps = some v → v.host = some "youtu.be" := by
        intro ps
        induction ps with
        | nil => intro v hv; simp [find_prefix_match] at hv
        | cons p rest ih =>
          intro v hv
          rw [find_prefix_match] at hv
          revert hv
          cases hmp : map_youtube_prefix url p with
          | some w =>
            intro hv
            obtain rfl : w = v := Option.some.inj hv
            rw [ map_youtube_prefix] at hmp
            by_cases hpre : p.data.isPrefixOf url.path.data
            · rw [if_pos hpre] at hmp
              obtain rfl := Option.some.inj hmp
              rfl
            · rw [if_neg hpre] at hmp
              exact absurd hmp (by simp)
          | none => exact ih v
      exact hgen _ _ hm
    have hz : ytDepth new_url = 0 := by simp [ytDepth, URL.domain, hh]
    omega

end

/-- `parse_url`: the clipboard read and `Url::parse` are external; their
composite outcome is the `attempt` argument (`none` for a read failure or
unparseable text).  A URL is admitted only when it has a domain. -/
def parse_url (attempt : Option URL) : Option URL :=
  match attempt with
  | some u =>
    match URL.domain u with
    | some _ => some u
    | none => none
  | none => none

/-- Serialization of one query pair, `key=value`. -/
def pairStr (p : String × String) : String := p.1 ++ "=" ++ p.2

/-- Serialization of a query pair list, `&`-separated. -/
def queryStr : List (String × String) → String
  | [] => ""
  | [p] => pairStr p
  | p :: q :: rest => pairStr p ++ "&" ++ queryStr (q :: rest)

/-- The string form of a URL, `scheme://host/path?query`. -/
def urlString (u : URL) : String :=
  u.scheme ++ "://" ++ u.host.getD "" ++ u.path ++
    (match u.query with
     | none => ""
     | some ps => "?" ++ queryStr ps)

/-- Parse one `key=value` piece; a piece with no `=` has an empty value. -/
def parsePairChars (l : List Char) : String × String :=
  match splitAtFirst '=' l with
  | (k, none) => (⟨k⟩, "")
  | (k, some v) => (⟨k⟩, ⟨v⟩)

/-- Parse a query string into its pairs. -/
def parseQueryChars (l : List Char) : List (String × String) :=
  (splitAll '&' l).map parsePairChars

/-- Model of `Url::parse` restricted to the `scheme://host/path?query` shape
this engine emits: cut at the first `:`, require `//`, cut off the query at
the first `?`, and split host from path at the first `/`.  Fails when the
host part is empty. -/
def parseURL (s : String) : Option URL :=
  match splitAtFirst ':' s.data with
  | (_, none) => none
  | (schemeChars, some rest) =>
    match rest with
    | '/' :: '/' :: rest2 =>
      let bq := splitAtFirst '?' rest2
      let hp := splitAtFirst '/' bq.1
      if hp.1 = [] then none
      else some
        { scheme := ⟨schemeChars⟩
          host := some ⟨hp.1⟩
          path :=
            match hp.2 with
            | none => ""
            | some p => ⟨'/' :: p⟩
          query :=
            match bq.2 with
            | none => none
            | some q => some (parseQueryChars q) }
    | _ => none

/-- `c` does not occur in the string `s`. -/
def noCharB (s : String) (c : Char) : Bool := !(s.data.contains c)

/-- A query key free of the separator characters the serializer relies on. -/
def cleanKey (s : String) : Bool := noCharB s '&' && noCharB s '=' && noCharB s '?'

/-- A query value free of the separator characters the serializer relies on. -/
def cleanVal (s : String) : Bool := noCharB s '&' && noCharB s '?'

/-- A present, non-empty host containing neither `/` nor `?`. -/
def hostOK : Option String → Bool
  | none => false
  | some h => (h != "") && noCharB h '/' && noCharB h '?'

/-- A path that is either empty or starts with `/`. -/
def pathShape : List Char → Bool
  | [] => true
  | c :: _ => c = '/'

/-- Well-formedness of a URL as the `url` crate guarantees it for parsed
http(s)-style URLs with a domain: no `:` in the scheme, a clean non-empty
host, a `?`-free path that is empty or `/`-rooted, and query pairs free of
the query separator characters. -/
def wfURL (u : URL) : Bool :=
  noCharB u.scheme ':' && hostOK u.host && noCharB u.path '?' && pathShape u.path.data &&
    (queryPairs u).all fun p => cleanKey p.1 && cleanVal p.2

/-- Well-formedness of an engine output: additionally the query component is
never present-but-empty. -/
def wfOut (u : URL) : Bool := wfURL u && u.query != some []

/-- The components surrounding the query contain no `?`. -/
def noQuestion (u : URL) : Bool :=
  noCharB u.scheme '?' && noCharB (u.host.getD "") '?' && noCharB u.path '?'

/-- Scenario URL `https://www.youtube.com/watch?v=1234&si=stripped&feature=share`. -/
def exWatch : URL :=
  ⟨"https", some "www.youtube.com", "/watch",
    some [("v", "1234"), ("si", "stripped"), ("feature", "share")]⟩

/-- Scenario URL `https://music.youtube.com/watch?v=5678&si=stripped&feature=share`. -/
def exMusic : URL :=
  ⟨"https", some "music.youtube.com", "/watch",
    some [("v", "5678"), ("si", "stripped"), ("feature", "share")]⟩

/-- Scenario URL `https://example.com/path?utm_source=foo&utm_medium=bar`. -/
def exGeneric : URL :=
  ⟨"https", some "example.com", "/path",
    some [("utm_source", "foo"), ("utm_medium", "bar")]⟩

/-- Scenario URL `https://youtube.com/live/xxxxxxxxxx?feature=share`. -/
def exLive : URL :=
  ⟨"https", some "youtube.com", "/live/xxxxxxxxxx", some [("feature", "share")]⟩

/-- A URL whose string form ends in a bare `?` (empty query component),
`https://example.com/?`. -/
def exEmptyQuery : URL := ⟨"https", some "example.com", "/", some []⟩

/-- A URL with no query component at all, `https://example.com/path`. -/
def exNoQuery : URL := ⟨"https", some "example.com", "/path", none⟩

/-- A youtube URL carrying two `v` parameters,
`https://www.youtube.com/watch?v=first&si=x&v=second&t=9`. -/
def exDoubleV : URL :=
  ⟨"https", some "www.youtube.com", "/watch",
    some [("v", "first"), ("si", "x"), ("v", "second"), ("t", "9")]⟩

/-! ## Basic lemmas about `strip_params` -/

theorem strip_params_scheme (u : URL) (s : List String) :
    (strip_params u s).scheme = u.scheme := by
  rw [strip_params]
  split <;> rfl

theorem strip_params_host (u : URL) (s : List String) :
    (strip_params u s).host = u.host := by
  rw [strip_params]
  split <;> rfl

theorem strip_params_path (u : URL) (s : List String) :
    (strip_params u s).path = u.path := by
  rw [strip_params]
  split <;> rfl

theorem strip_params_queryPairs (u : URL) (s : List String) :
    queryPairs (strip_params u s) = (queryPairs u).filter fun p => !(s.contains p.1) := by
  rw [strip_params]
  split
  · next h => rw [h]; rfl
  · next h => rfl

theorem strip_params_query_ne_some_nil (u : URL) (s : List String) :
    (strip_params u s).query ≠ some [] := by
  rw [strip_params]
  split
  · next h => simp
  · next h => exact fun hc => h (Option.some.inj hc)

theorem strip_params_absorb (u : URL) (s s' : List String)
    (hsub : ∀ x, s'.contains x = true → s.contains x = true) :
    strip_params (strip_params u s) s' = strip_params u s := by
  have hkB : (queryPairs (strip_params u s)).filter (fun p => !(s'.contains p.1))
      = queryPairs (strip_params u s) := by
    apply List.filter_eq_self.mpr
    intro p hp
    rw [strip_params_queryPairs] at hp
    have h2 := List.of_mem_filter hp
    simp only [Bool.not_eq_true'] at h2 ⊢
    cases hc : s'.contains p.1
    · rfl
    · exfalso
      have hcc := hsub _ hc
      rw [h2] at hcc
      exact Bool.noConfusion hcc
  by_cases hnil : (queryPairs u).filter (fun p => !(s.contains p.1)) = []
  · have hA : strip_params u s = { u with query := none } := by
      rw [strip_params, if_pos hnil]
    rw [hA]
    rfl
  · have hB : strip_params u s
        = { u with query := some ((queryPairs u).filter fun p => !(s.contains p.1)) } := by
      rw [strip_params, if_neg hnil]
    rw [strip_params, hkB, strip_params_queryPairs, if_neg hnil, hB]

/-! ## Lemmas about `domain`, `get_query_value` and the prefix loop -/

theorem domain_eq_some {u : URL} {d : String} (h : URL.domain u = some d) :
    u.host = some d ∧ d ≠ "" := by
  obtain ⟨sch, ho, pa, qu⟩ := u
  cases ho with
  | none => exact absurd h (by simp [URL.domain])
  | some x =>
    simp only [URL.domain] at h
    by_cases hx : x = ""
    · rw [if_pos hx] at h
      exact absurd h (by simp)
    · rw [if_neg hx] at h
      obtain rfl := Option.some.inj h
      exact ⟨rfl, hx⟩

theorem domain_of_host {u : URL} {h : String} (hh : u.host = some h) (hne : h ≠ "") :
    URL.domain u = some h := by
  rw [URL.domain, hh]
  simp [hne]

theorem get_query_value_eq_none_iff (u : URL) (k : String) :
    get_query_value u k = none ↔ ∀ p ∈ queryPairs u, p.1 ≠ k := by
  rw [get_query_value]
  simp [List.find?_eq_none]

theorem get_query_value_first {u : URL} {k x : String}
    {ps₁ ps₂ : List (String × String)}
    (hq : queryPairs u = ps₁ ++ (k, x) :: ps₂)
    (hfst : ∀ p ∈ ps₁, p.1 ≠ k) :
    get_query_value u k = some x := by
  rw [get_query_value, hq]
  have h1 : ps₁.find? (fun p => p.1 == k) = none := by
    rw [List.find?_eq_none]
    intro p hp
    simp [hfst p hp]
  rw [List.find?_append, h1]
  simp

theorem map_youtube_prefix_pos {url : URL} {pre : String}
    (h : pre.data.isPrefixOf url.path.data = true) :
    map_youtube_prefix url pre = some
      { url with host := some "youtu.be",
                 path := "/" ++ (⟨(splitAtFirst '/' (url.path.data.drop pre.length)).1⟩ : String) } := by
  rw [ map_youtube_prefix, if_pos h]

theorem map_youtube_prefix_neg {url : URL} {pre : String}
    (h : pre.data.isPrefixOf url.path.data = false) :
    map_youtube_prefix url pre = none := by
  rw [ map_youtube_prefix, if_neg (by simp [h])]

theorem find_prefix_match_eq_none_iff (url : URL) (ps : List String) :
    find_prefix_match url ps = none ↔
      ∀ p ∈ ps, p.data.isPrefixOf url.path.data = false := by
  induction ps with
  | nil => simp [find_prefix_match]
  | cons p rest ih =>
    rw [find_prefix_match]
    constructor
    · intro h q hq
      revert h
      cases hmp : map_youtube_prefix url p with
      | some w => intro h; exact absurd h (by simp)
      | none =>
        intro h
        rcases List.mem_cons.mp hq with rfl | hq2
        · cases hpre : q.data.isPrefixOf url.path.data with
          | true =>
            rw [map_youtube_prefix_pos hpre] at hmp
            exact absurd hmp (by simp)
          | false => rfl
        · exact (ih.mp h) q hq2
    · intro h
      rw [map_youtube_prefix_neg (h p (List.mem_cons_self p rest))]
      exact ih.mpr fun q hq => h q (List.mem_cons_of_mem p hq)

theorem find_prefix_match_shape {url : URL} {ps : List String} {w : URL}
    (h : find_prefix_match url ps = some w) :
    ∃ pre ∈ ps, pre.data.isPrefixOf url.path.data = true ∧
      w = { url with host := some "youtu.be",
                     path := "/" ++ (⟨(splitAtFirst '/' (url.path.data.drop pre.length)).1⟩ : String) } := by
  induction ps with
  | nil => exact absurd h (by simp [find_prefix_match])
  | cons p rest ih =>
    rw [find_prefix_match] at h
    revert h
    cases hmp : map_youtube_prefix url p with
    | some v =>
      intro h
      obtain rfl := Option.some.inj h
      cases hpre : p.data.isPrefixOf url.path.data with
      | true =>
        rw [map_youtube_prefix_pos hpre] at hmp
        exact ⟨p, List.mem_cons_self p rest, hpre, (Option.some.inj hmp).symm⟩
      | false =>
        rw [map_youtube_prefix_neg hpre] at hmp
        exact absurd hmp (by simp)
    | none =>
      intro h
      obtain ⟨pre, hmem, hpre, hw⟩ := ih h
      exact ⟨pre, List.mem_cons_of_mem p hmem, hpre, hw⟩

theorem find_prefix_match_first {url : URL} {ps₁ ps₂ : List String} {pre : String}
    (hmiss : ∀ q ∈ ps₁, q.data.isPrefixOf url.path.data = false)
    (hhit : pre.data.isPrefixOf url.path.data = true) :
    find_prefix_match url (ps₁ ++ pre :: ps₂) = some
      { url with host := some "youtu.be",
                 path := "/" ++ (⟨(splitAtFirst '/' (url.path.data.drop pre.length)).1⟩ : String) } := by
  induction ps₁ with
  | nil =>
    rw [List.nil_append, find_prefix_match, map_youtube_prefix_pos hhit]
  | cons q qs ih =>
    rw [List.cons_append, find_prefix_match,
      map_youtube_prefix_neg (hmiss q (List.mem_cons_self q qs))]
    exact ih fun r hr => hmiss r (List.mem_cons_of_mem q hr)

/-! ## Branch equations for `strip_tracking` and `strip_full_youtube` -/

theorem strip_tracking_no_domain {cfg : Option String} {url : URL}
    (hd : URL.domain url = none) : strip_tracking cfg url = none := by
  rw [strip_tracking]
  split
  · rfl
  · next d heq => rw [hd] at heq; exact absurd heq (by simp)

theorem strip_tracking_youtube {cfg : Option String} {url : URL} {d : String}
    (hd : URL.domain url = some d)
    (hyt : d = "www.youtube.com" ∨ d = "youtube.com") :
    strip_tracking cfg url = strip_full_youtube cfg url := by
  rw [strip_tracking]
  split
  · next heq => rw [hd] at heq; exact absurd heq (by simp)
  · next d' heq =>
    rw [hd] at heq
    obtain rfl := Option.some.inj heq
    rcases hyt with rfl | rfl
    · rw [dif_pos rfl]
    · rw [dif_neg (by decide), dif_pos rfl]

theorem strip_tracking_si {cfg : Option String} {url : URL} {d : String}
    (hd : URL.domain url = some d)
    (hsi : d = "youtu.be" ∨ d = "music.youtube.com") :
    strip_tracking cfg url = some (strip_params url YOUTUBE_TRACKING_PARAMS) := by
  rw [strip_tracking]
  split
  · next heq => rw [hd] at heq; exact absurd heq (by simp)
  · next d' heq =>
    rw [hd] at heq
    obtain rfl := Option.some.inj heq
    rcases hsi with rfl | rfl
    · rw [dif_neg (by decide), dif_neg (by decide), if_pos rfl]
    · rw [dif_neg (by decide), dif_neg (by decide), if_neg (by decide), if_pos rfl]

theorem strip_tracking_common {cfg : Option String} {url : URL} {d : String}
    (hd : URL.domain url = some d)
    (h1 : d ≠ "www.youtube.com") (h2 : d ≠ "youtube.com")
    (h3 : d ≠ "youtu.be") (h4 : d ≠ "music.youtube.com") :
    strip_tracking cfg url = some (strip_params url COMMON_TRACKING_PARAMS) := by
  rw [strip_tracking]
  split
  · next heq => rw [hd] at heq; exact absurd heq (by simp)
  · next d' heq =>
    rw [hd] at heq
    obtain rfl := Option.some.inj heq
    rw [dif_neg h1, dif_neg h2, if_neg h3, if_neg h4]

theorem strip_full_youtube_rec {cfg : Option String} {url w : URL}
    (hm : find_prefix_match url (enabled_prefixes cfg) = some w) :
    strip_full_youtube cfg url = strip_tracking cfg w := by
  rw [strip_full_youtube]
  split
  · next nu heq => rw [hm] at heq; obtain rfl := Option.some.inj heq; rfl
  · next heq => rw [hm] at heq; exact absurd heq (by simp)

theorem strip_full_youtube_v {cfg : Option String} {url : URL} {vid : String}
    (hm : find_prefix_match url (enabled_prefixes cfg) = none)
    (hv : get_query_value url "v" = some vid) :
    strip_full_youtube cfg url = some
      (strip_params { url with host := some "youtu.be", path := "/" ++ vid }
        (YOUTUBE_TRACKING_PARAMS ++ ["v"])) := by
  rw [strip_full_youtube]
  split
  · next nu heq => rw [hm] at heq; exact absurd heq (by simp)
  · next heq =>
    split
    · next vid' heq2 => rw [hv] at heq2; obtain rfl := Option.some.inj heq2; rfl
    · next heq2 => rw [hv] at heq2; exact absurd heq2 (by simp)

theorem strip_full_youtube_plain {cfg : Option String} {url : URL}
    (hm : find_prefix_match url (enabled_prefixes cfg) = none)
    (hv : get_query_value url "v" = none) :
    strip_full_youtube cfg url = some (strip_params url YOUTUBE_TRACKING_PARAMS) := by
  rw [strip_full_youtube]
  split
  · next nu heq => rw [hm] at heq; exact absurd heq (by simp)
  · next heq =>
    split
    · next vid' heq2 => rw [hv] at heq2; exact absurd heq2 (by simp)
    · next heq2 => rfl

/-! ## String-form lemmas -/

theorem noCharB_iff (s : String) (c : Char) : noCharB s c = true ↔ c ∉ s.data := by
  simp [noCharB]

theorem urlString_data (u : URL) : (urlString u).data =
    u.scheme.data ++ ':' :: '/' :: '/' :: ((u.host.getD "").data ++ u.path.data ++
      (match u.query with
       | none => []
       | some ps => '?' :: (queryStr ps).data)) := by
  rw [urlString]
  cases u.query with
  | none => simp [String.data_append]
  | some ps => simp [String.data_append]

theorem strip_tracking_isSome {cfg : Option String} {u : URL} {d : String}
    (hd : URL.domain u = some d) : (strip_tracking cfg u).isSome = true := by
  by_cases hyt : d = "www.youtube.com" ∨ d = "youtube.com"
  · rw [strip_tracking_youtube hd hyt]
    cases hm : find_prefix_match u (enabled_prefixes cfg) with
    | some w =>
      rw [strip_full_youtube_rec hm]
      obtain ⟨pre, _, _, hw⟩ := find_prefix_match_shape hm
      have hhost : w.host = some "youtu.be" := by rw [hw]
      rw [strip_tracking_si (domain_of_host hhost (by decide)) (Or.inl rfl)]
      rfl
    | none =>
      cases hv : get_query_value u "v" with
      | some vid => rw [strip_full_youtube_v hm hv]; rfl
      | none => rw [strip_full_youtube_plain hm hv]; rfl
  · push_neg at hyt
    by_cases hsi : d = "youtu.be" ∨ d = "music.youtube.com"
    · rw [strip_tracking_si hd hsi]; rfl
    · push_neg at hsi
      rw [strip_tracking_common hd hyt.1 hyt.2 hsi.1 hsi.2]; rfl

/-! ## Claim C1: `strip_params` filters exactly, in order, and drops an
empty query -/

/-- C1: for every URL and strip set, the query pairs of `strip_params u s`
are exactly the pairs of `u` with every pair whose key is in `s` removed, in
their original relative order; and when no pair survives the string form of
the result contains no `?` (given that, as for every URL the `url` crate
produces, the scheme, host and path contain no `?`). -/
theorem claim_C1 (u : URL) (s : List String) (h : noQuestion u = true) :
    queryPairs (strip_params u s) = (queryPairs u).filter (fun p => !(s.contains p.1)) ∧
    ((queryPairs u).filter (fun p => !(s.contains p.1)) = [] →
      '?' ∉ (urlString (strip_params u s)).data) := by
  refine ⟨strip_params_queryPairs u s, fun hnil => ?_⟩
  have hsp : strip_params u s = { u with query := none } := by
    rw [strip_params, if_pos hnil]
  rw [hsp, urlString_data]
  simp only [noQuestion, Bool.and_eq_true, noCharB_iff] at h
  obtain ⟨⟨h1, h2⟩, h3⟩ := h
  simp [List.mem_append, h1, h2, h3]

/-- C1 witness: stripping every key of the watch-page URL leaves no pair and
a `?`-free string form. -/
theorem claim_C1_witness :
    queryPairs (strip_params exWatch ["v", "si", "feature"]) =
      (queryPairs exWatch).filter
        (fun p => !((["v", "si", "feature"] : List String).contains p.1)) ∧
    '?' ∉ (urlString (strip_params exWatch ["v", "si", "feature"])).data :=
  ⟨(claim_C1 exWatch ["v", "si", "feature"] (by decide)).1,
   (claim_C1 exWatch ["v", "si", "feature"] (by decide)).2 (by decide)⟩

/-! ## Claim C5: `strip_params` on degenerate inputs -/

/-- C5 counterexample: on a URL whose query component is present but empty
(string form `https://example.com/?`), `strip_params` with the empty strip
set is not the identity — it drops the empty query component. -/
theorem claim_C5_counterexample : strip_params exEmptyQuery [] ≠ exEmptyQuery := by
  decide

/-- C5 (amended): `strip_params u ∅` returns `u` unchanged except that a
present-but-empty query component is dropped; and on a URL with no query
component, `strip_params` is the identity for every strip set. -/
theorem claim_C5 (u : URL) (s : List String) :
    (strip_params u [] = if u.query = some [] then { u with query := none } else u) ∧
    (u.query = none → strip_params u s = u) := by
  obtain ⟨sch, ho, pa, qu⟩ := u
  constructor
  · cases qu with
    | none => simp [strip_params, queryPairs]
    | some l =>
      cases l with
      | nil => simp [strip_params, queryPairs]
      | cons x xs => simp [strip_params, queryPairs]
  · intro hq
    cases hq
    simp [strip_params, queryPairs]

/-- C5 witness: the no-query URL is fixed by any strip set, and the scenario
URL (whose query is non-empty) is fixed by the empty strip set. -/
theorem claim_C5_witness :
    (strip_params exGeneric [] =
      if exGeneric.query = some [] then { exGeneric with query := none } else exGeneric) ∧
    strip_params exNoQuery ["si"] = exNoQuery :=
  ⟨(claim_C5 exGeneric ["si"]).1, (claim_C5 exNoQuery ["si"]).2 rfl⟩

/-! ## Claim C6: `youtu.be` and `music.youtube.com` strip `si` only -/

/-- C6: on a URL whose domain is exactly `youtu.be` or exactly
`music.youtube.com`, the dispatch removes exactly the query pairs named `si`
and changes nothing else (scheme, host, path and the other pairs survive in
order). -/
theorem claim_C6 (cfg : Option String) (u : URL) (d : String)
    (hd : URL.domain u = some d)
    (hsi : d = "youtu.be" ∨ d = "music.youtube.com") :
    ∃ w, strip_tracking cfg u = some w ∧ w.scheme = u.scheme ∧ w.host = u.host ∧
      w.path = u.path ∧
      queryPairs w = (queryPairs u).filter fun p => !(p.1 == "si") := by
  refine ⟨strip_params u YOUTUBE_TRACKING_PARAMS, strip_tracking_si hd hsi,
    strip_params_scheme u _, strip_params_host u _, strip_params_path u _, ?_⟩
  rw [strip_params_queryPairs]
  apply List.filter_congr
  intro p hp
  have hc : YOUTUBE_TRACKING_PARAMS.contains p.1 = (p.1 == "si") := by
    cases hps : p.1 == "si" <;>
      simp [YOUTUBE_TRACKING_PARAMS, List.contains, List.elem, hps]
  rw [hc]

/-- C6 witness: the `music.youtube.com` scenario keeps `v` and `feature` and
drops `si`; the string form is
`https://music.youtube.com/watch?v=5678&feature=share`. -/
theorem claim_C6_witness :
    (∃ w, strip_tracking none exMusic = some w ∧ w.scheme = exMusic.scheme ∧
      w.host = exMusic.host ∧ w.path = exMusic.path ∧
      queryPairs w = (queryPairs exMusic).filter fun p => !(p.1 == "si")) ∧
    (strip_tracking none exMusic).map urlString =
      some "https://music.youtube.com/watch?v=5678&feature=share" := by
  constructor
  · exact claim_C6 none exMusic "music.youtube.com" rfl (Or.inr rfl)
  · rw [@strip_tracking_si none exMusic "music.youtube.com" rfl (Or.inr rfl)]
    rfl

/-! ## Claim C7: all other domains keep scheme, host, path and lose only the
generic tracking parameters -/

/-- C7: on a URL whose domain matches none of the four explicit YouTube
hosts, the dispatch leaves scheme, host and path unchanged and removes
exactly the query pairs whose key is one of the five `utm_*` parameters. -/
theorem claim_C7 (cfg : Option String) (u : URL) (d : String)
    (hd : URL.domain u = some d)
    (h1 : d ≠ "www.youtube.com") (h2 : d ≠ "youtube.com")
    (h3 : d ≠ "youtu.be") (h4 : d ≠ "music.youtube.com") :
    ∃ w, strip_tracking cfg u = some w ∧ w.scheme = u.scheme ∧ w.host = u.host ∧
      w.path = u.path ∧
      queryPairs w = (queryPairs u).filter fun p =>
        !((["utm_source", "utm_medium", "utm_campaign", "utm_term",
            "utm_content"] : List String).contains p.1) := by
  refine ⟨strip_params u COMMON_TRACKING_PARAMS, strip_tracking_common hd h1 h2 h3 h4,
    strip_params_scheme u _, strip_params_host u _, strip_params_path u _, ?_⟩
  rw [strip_params_queryPairs]
  rfl

/-- C7 witness: the generic scenario URL keeps scheme/host/path and loses
its two `utm_*` pairs, giving `https://example.com/path`. -/
theorem claim_C7_witness :
    (∃ w, strip_tracking none exGeneric = some w ∧ w.scheme = exGeneric.scheme ∧
      w.host = exGeneric.host ∧ w.path = exGeneric.path ∧
      queryPairs w = (queryPairs exGeneric).filter fun p =>
        !((["utm_source", "utm_medium", "utm_campaign", "utm_term",
            "utm_content"] : List String).contains p.1)) ∧
    (strip_tracking none exGeneric).map urlString = some "https://example.com/path" := by
  constructor
  · exact claim_C7 none exGeneric "example.com" rfl (by decide) (by decide) (by decide)
      (by decide)
  · rw [@strip_tracking_common none exGeneric "example.com" rfl (by decide) (by decide) (by decide)
      (by decide)]
    rfl

/-! ## Claim C9: `parse_url` guarantees a domain and `strip_tracking` cannot
panic on it -/

/-- C9: every URL admitted by `parse_url` has a non-empty domain, and on such
a URL `strip_tracking` never reaches its panicking branch (the result is
always `some`). -/
theorem claim_C9 (a : Option URL) (cfg : Option String) (u : URL)
    (h : parse_url a = some u) :
    (∃ d, URL.domain u = some d ∧ d ≠ "") ∧ (strip_tracking cfg u).isSome = true := by
  have hdom : ∃ d, URL.domain u = some d := by
    revert h
    cases a with
    | none => intro h; exact absurd h (by simp [parse_url])
    | some w =>
      simp only [parse_url]
      cases hd : URL.domain w with
      | none => intro h; exact absurd h (by simp)
      | some d =>
        intro h
        obtain rfl := Option.some.inj h
        exact ⟨d, hd⟩
  obtain ⟨d, hd⟩ := hdom
  exact ⟨⟨d, hd, (domain_eq_some hd).2⟩, strip_tracking_isSome hd⟩

/-- C9 witness: the generic scenario URL passes `parse_url` and is safely
dispatched. -/
theorem claim_C9_witness :
    (∃ d, URL.domain exGeneric = some d ∧ d ≠ "") ∧
    (strip_tracking none exGeneric).isSome = true :=
  claim_C9 (some exGeneric) none exGeneric rfl

/-! ## Claims C2 and C10: the full-YouTube `v`-parameter rewrite -/

theorem filter_si_v (l : List (String × String)) :
    l.filter (fun p => !((YOUTUBE_TRACKING_PARAMS ++ ["v"]).contains p.1))
      = l.filter fun p => !(p.1 == "si") && !(p.1 == "v") := by
  apply List.filter_congr
  intro p hp
  have hc : (YOUTUBE_TRACKING_PARAMS ++ ["v"]).contains p.1
      = ((p.1 == "si") || (p.1 == "v")) := by
    cases h1 : p.1 == "si" <;> cases h2 : p.1 == "v" <;>
      simp [YOUTUBE_TRACKING_PARAMS, List.contains, List.elem, h1, h2]
  rw [hc, Bool.not_or]

/-- C2: on a `youtube.com`/`www.youtube.com` URL whose path matches no
configured prefix and which carries a `v` query parameter, the dispatch
returns host `youtu.be`, path `/` + the value of `v`, and the original query
with every `si` and `v` pair removed. -/
theorem claim_C2 (cfg : Option String) (u : URL) (d vid : String)
    (hd : URL.domain u = some d)
    (hyt : d = "www.youtube.com" ∨ d = "youtube.com")
    (hnp : ∀ p ∈ enabled_prefixes cfg, p.data.isPrefixOf u.path.data = false)
    (hv : get_query_value u "v" = some vid) :
    ∃ w, strip_tracking cfg u = some w ∧ w.host = some "youtu.be" ∧
      w.path = "/" ++ vid ∧
      queryPairs w = (queryPairs u).filter fun p => !(p.1 == "si") && !(p.1 == "v") := by
  have hm : find_prefix_match u (enabled_prefixes cfg) = none :=
    (find_prefix_match_eq_none_iff u _).mpr hnp
  rw [strip_tracking_youtube hd hyt, strip_full_youtube_v hm hv]
  refine ⟨_, rfl, ?_, ?_, ?_⟩
  · rw [strip_params_host]
  · rw [strip_params_path]
  · rw [strip_params_queryPairs]
    exact filter_si_v (queryPairs u)

/-- C2 witness: scenario 1,
`https://www.youtube.com/watch?v=1234&si=stripped&feature=share` becomes
`https://youtu.be/1234?feature=share`. -/
theorem claim_C2_witness :
    (∃ w, strip_tracking none exWatch = some w ∧ w.host = some "youtu.be" ∧
      w.path = "/" ++ "1234" ∧
      queryPairs w = (queryPairs exWatch).filter fun p =>
        !(p.1 == "si") && !(p.1 == "v")) ∧
    (strip_tracking none exWatch).map urlString =
      some "https://youtu.be/1234?feature=share" := by
  constructor
  · exact claim_C2 none exWatch "www.youtube.com" "1234" rfl (Or.inl rfl)
      (fun p hp => absurd hp (List.not_mem_nil p)) rfl
  · rw [@strip_tracking_youtube none exWatch "www.youtube.com" rfl (Or.inl rfl),
      @strip_full_youtube_v none exWatch "1234" rfl rfl]
    rfl

/-- C10: `get_query_value` returns the first pair with the requested key, so
on a full-YouTube URL with several `v` parameters the rewritten path carries
the first `v` value while every `v` (and `si`) pair is removed from the
remaining query. -/
theorem claim_C10 (cfg : Option String) (u : URL) (d x : String)
    (ps₁ ps₂ : List (String × String))
    (hq : queryPairs u = ps₁ ++ ("v", x) :: ps₂)
    (hfst : ∀ p ∈ ps₁, p.1 ≠ "v")
    (hd : URL.domain u = some d)
    (hyt : d = "www.youtube.com" ∨ d = "youtube.com")
    (hm : find_prefix_match u (enabled_prefixes cfg) = none) :
    get_query_value u "v" = some x ∧
    ∃ w, strip_tracking cfg u = some w ∧ w.path = "/" ++ x ∧
      queryPairs w = (queryPairs u).filter fun p => !(p.1 == "si") && !(p.1 == "v") := by
  have hv : get_query_value u "v" = some x := get_query_value_first hq hfst
  refine ⟨hv, ?_⟩
  rw [strip_tracking_youtube hd hyt, strip_full_youtube_v hm hv]
  refine ⟨_, rfl, ?_, ?_⟩
  · rw [strip_params_path]
  · rw [strip_params_queryPairs]
    exact filter_si_v (queryPairs u)

/-- C10 witness: with query `v=first&si=x&v=second&t=9` the first `v` wins
and the result is `https://youtu.be/first?t=9`. -/
theorem claim_C10_witness :
    (get_query_value exDoubleV "v" = some "first" ∧
      ∃ w, strip_tracking none exDoubleV = some w ∧ w.path = "/" ++ "first" ∧
        queryPairs w = (queryPairs exDoubleV).filter fun p =>
          !(p.1 == "si") && !(p.1 == "v")) ∧
    (strip_tracking none exDoubleV).map urlString = some "https://youtu.be/first?t=9" := by
  constructor
  · exact claim_C10 none exDoubleV "www.youtube.com" "first" []
      [("si", "x"), ("v", "second"), ("t", "9")] rfl
      (fun p hp => absurd hp (List.not_mem_nil p)) rfl (Or.inl rfl) rfl
  · rw [@strip_tracking_youtube none exDoubleV "www.youtube.com" rfl (Or.inl rfl),
      @strip_full_youtube_v none exDoubleV "first" rfl rfl]
    rfl

/-! ## Claim C3: the configured-prefix rewrite re-dispatches -/

/-- C3: on a `youtube.com`/`www.youtube.com` URL whose path starts with the
first matching configured prefix, the dispatch result equals the full
dispatch re-run on the URL with host `youtu.be` and path `/` followed by the
path segment right after the prefix (up to the next `/`). -/
theorem claim_C3 (cfg : Option String) (u : URL) (d : String)
    (ps₁ ps₂ : List String) (pre : String)
    (hd : URL.domain u = some d)
    (hyt : d = "www.youtube.com" ∨ d = "youtube.com")
    (hep : enabled_prefixes cfg = ps₁ ++ pre :: ps₂)
    (hmiss : ∀ q ∈ ps₁, q.data.isPrefixOf u.path.data = false)
    (hhit : pre.data.isPrefixOf u.path.data = true) :
    strip_tracking cfg u = strip_tracking cfg
      { u with host := some "youtu.be",
               path := "/" ++ (⟨(splitAtFirst '/' (u.path.data.drop pre.length)).1⟩
                 : String) } := by
  rw [strip_tracking_youtube hd hyt]
  have hm : find_prefix_match u (enabled_prefixes cfg) = some
      { u with host := some "youtu.be",
               path := "/" ++ (⟨(splitAtFirst '/' (u.path.data.drop pre.length)).1⟩
                 : String) } := by
    rw [hep]
    exact find_prefix_match_first hmiss hhit
  rw [strip_full_youtube_rec hm]

/-- C3 witness: scenario 5 with configured prefixes `live,shorts`;
`https://youtube.com/live/xxxxxxxxxx?feature=share` rewrites through
`youtu.be/xxxxxxxxxx` and comes out as
`https://youtu.be/xxxxxxxxxx?feature=share`. -/
theorem claim_C3_witness :
    (strip_tracking (some "live,shorts") exLive = strip_tracking (some "live,shorts")
      { exLive with host := some "youtu.be",
                    path := "/" ++ (⟨(splitAtFirst '/'
                      (exLive.path.data.drop "/live/".length)).1⟩ : String) }) ∧
    (strip_tracking (some "live,shorts") exLive).map urlString =
      some "https://youtu.be/xxxxxxxxxx?feature=share" := by
  constructor
  · exact claim_C3 (some "live,shorts") exLive "youtube.com" [] ["/shorts/"] "/live/"
      rfl (Or.inr rfl) rfl (fun q hq => absurd hq (List.not_mem_nil q)) rfl
  · rw [@strip_tracking_youtube (some "live,shorts") exLive "youtube.com" rfl (Or.inr rfl),
      @strip_full_youtube_rec (some "live,shorts") exLive
        ⟨"https", some "youtu.be", "/xxxxxxxxxx", some [("feature", "share")]⟩ rfl,
      @strip_tracking_si (some "live,shorts")
        ⟨"https", some "youtu.be", "/xxxxxxxxxx", some [("feature", "share")]⟩
        "youtu.be" rfl (Or.inl rfl)]
    rfl

/-! ## Claim C4: idempotence of the dispatch -/

theorem contains_mono {s s' : List String} (hsub : ∀ y, y ∈ s' → y ∈ s) :
    ∀ x, s'.contains x = true → s.contains x = true := by
  intro x hx
  have hxm : x ∈ s' := by simpa using hx
  simpa using hsub x hxm

theorem domain_strip_params (u : URL) (s : List String) :
    URL.domain (strip_params u s) = URL.domain u := by
  rw [URL.domain, URL.domain, strip_params_host]

theorem gqv_strip_params_of_none {u : URL} {s : List String} {k : String}
    (h : get_query_value u k = none) :
    get_query_value (strip_params u s) k = none := by
  rw [get_query_value_eq_none_iff] at h ⊢
  intro p hp
  rw [strip_params_queryPairs] at hp
  exact h p (List.mem_of_mem_filter hp)

theorem fpm_none_congr {u v : URL} {ps : List String} (hpath : v.path = u.path)
    (h : find_prefix_match u ps = none) : find_prefix_match v ps = none := by
  rw [find_prefix_match_eq_none_iff] at h ⊢
  intro p hp
  rw [hpath]
  exact h p hp

/-- C4: the site-rule dispatch is idempotent — whenever it maps `u` to `v`,
it maps `v` to `v` again. -/
theorem claim_C4 (cfg : Option String) (u v : URL)
    (h : strip_tracking cfg u = some v) :
    strip_tracking cfg v = some v := by
  have hid : ∀ x, YOUTUBE_TRACKING_PARAMS.contains x = true →
      YOUTUBE_TRACKING_PARAMS.contains x = true := fun x hx => hx
  cases hd : URL.domain u with
  | none => rw [strip_tracking_no_domain hd] at h; exact absurd h (by simp)
  | some d =>
    by_cases hyt : d = "www.youtube.com" ∨ d = "youtube.com"
    · rw [strip_tracking_youtube hd hyt] at h
      cases hm : find_prefix_match u (enabled_prefixes cfg) with
      | some w =>
        rw [strip_full_youtube_rec hm] at h
        obtain ⟨pre, _, _, hw⟩ := find_prefix_match_shape hm
        have hwhost : w.host = some "youtu.be" := by rw [hw]
        rw [strip_tracking_si (domain_of_host hwhost (by decide)) (Or.inl rfl)] at h
        obtain rfl := Option.some.inj h
        have hvhost : (strip_params w YOUTUBE_TRACKING_PARAMS).host = some "youtu.be" := by
          rw [strip_params_host, hwhost]
        rw [strip_tracking_si (domain_of_host hvhost (by decide)) (Or.inl rfl),
          strip_params_absorb w YOUTUBE_TRACKING_PARAMS YOUTUBE_TRACKING_PARAMS hid]
      | none =>
        cases hv : get_query_value u "v" with
        | some vid =>
          rw [strip_full_youtube_v hm hv] at h
          obtain rfl := Option.some.inj h
          have hvhost : (strip_params { u with host := some "youtu.be", path := "/" ++ vid }
              (YOUTUBE_TRACKING_PARAMS ++ ["v"])).host = some "youtu.be" := by
            rw [strip_params_host]
          rw [strip_tracking_si (domain_of_host hvhost (by decide)) (Or.inl rfl),
            strip_params_absorb _ _ _ (contains_mono ?_)]
          intro y hy
          cases hy with
          | head => exact List.Mem.head _
          | tail _ hz => cases hz
        | none =>
          rw [strip_full_youtube_plain hm hv] at h
          obtain rfl := Option.some.inj h
          have hdv : URL.domain (strip_params u YOUTUBE_TRACKING_PARAMS) = some d := by
            rw [domain_strip_params, hd]
          rw [strip_tracking_youtube hdv hyt,
            strip_full_youtube_plain (fpm_none_congr (strip_params_path u _) hm)
              (gqv_strip_params_of_none hv),
            strip_params_absorb u YOUTUBE_TRACKING_PARAMS YOUTUBE_TRACKING_PARAMS hid]
    · by_cases hsi : d = "youtu.be" ∨ d = "music.youtube.com"
      · rw [strip_tracking_si hd hsi] at h
        obtain rfl := Option.some.inj h
        have hdv : URL.domain (strip_params u YOUTUBE_TRACKING_PARAMS) = some d := by
          rw [domain_strip_params, hd]
        rw [strip_tracking_si hdv hsi,
          strip_params_absorb u YOUTUBE_TRACKING_PARAMS YOUTUBE_TRACKING_PARAMS hid]
      · push_neg at hyt hsi
        rw [strip_tracking_common hd hyt.1 hyt.2 hsi.1 hsi.2] at h
        obtain rfl := Option.some.inj h
        have hdv : URL.domain (strip_params u COMMON_TRACKING_PARAMS) = some d := by
          rw [domain_strip_params, hd]
        rw [strip_tracking_common hdv hyt.1 hyt.2 hsi.1 hsi.2,
          strip_params_absorb u COMMON_TRACKING_PARAMS COMMON_TRACKING_PARAMS
            (fun x hx => hx)]

/-- C4 witness: the already-clean generic URL is a fixed point reached from
the scenario-3 URL. -/
theorem claim_C4_witness : strip_tracking none exNoQuery = some exNoQuery :=
  claim_C4 none exGeneric exNoQuery
    (by rw [@strip_tracking_common none exGeneric "example.com" rfl (by decide) (by decide)
        (by decide) (by decide)]; rfl)

/-! ## Character-splitting lemmas for the parse/print round trip -/

theorem splitAtFirst_not_mem {c : Char} {l : List Char} (h : c ∉ l) :
    splitAtFirst c l = (l, none) := by
  induction l with
  | nil => rfl
  | cons x xs ih =>
    have hx : ¬ x = c := fun he => h (by rw [← he]; exact List.mem_cons_self x xs)
    rw [splitAtFirst, if_neg hx, ih fun hm => h (List.mem_cons_of_mem x hm)]

theorem splitAtFirst_append {c : Char} {l₁ l₂ : List Char} (h : c ∉ l₁) :
    splitAtFirst c (l₁ ++ c :: l₂) = (l₁, some l₂) := by
  induction l₁ with
  | nil => rw [List.nil_append, splitAtFirst, if_pos rfl]
  | cons x xs ih =>
    have hx : ¬ x = c := fun he => h (by rw [← he]; exact List.mem_cons_self x xs)
    rw [List.cons_append, splitAtFirst, if_neg hx,
      ih fun hm => h (List.mem_cons_of_mem x hm)]

theorem splitAtFirst_fst_subset {c x : Char} {l : List Char}
    (h : x ∈ (splitAtFirst c l).1) : x ∈ l := by
  induction l with
  | nil => exact absurd h (by simp [splitAtFirst])
  | cons y ys ih =>
    rw [splitAtFirst] at h
    by_cases hy : y = c
    · rw [if_pos hy] at h
      exact absurd h (by simp)
    · rw [if_neg hy] at h
      rcases List.mem_cons.mp h with rfl | h2
      · exact List.mem_cons_self x ys
      · exact List.mem_cons_of_mem y (ih h2)

theorem splitAll_not_mem {c : Char} {l : List Char} (h : c ∉ l) :
    splitAll c l = [l] := by
  induction l with
  | nil => rfl
  | cons x xs ih =>
    have hx : ¬ x = c := fun he => h (by rw [← he]; exact List.mem_cons_self x xs)
    rw [splitAll, if_neg hx, ih fun hm => h (List.mem_cons_of_mem x hm)]

theorem splitAll_append {c : Char} {a rest : List Char} (h : c ∉ a) :
    splitAll c (a ++ c :: rest) = a :: splitAll c rest := by
  induction a with
  | nil => rw [List.nil_append, splitAll, if_pos rfl]
  | cons x xs ih =>
    have hx : ¬ x = c := fun he => h (by rw [← he]; exact List.mem_cons_self x xs)
    rw [List.cons_append, splitAll, if_neg hx,
      ih fun hm => h (List.mem_cons_of_mem x hm)]

theorem pairStr_data (p : String × String) :
    (pairStr p).data = p.1.data ++ '=' :: p.2.data := by
  rw [pairStr, String.data_append, String.data_append, List.append_assoc]
  rfl

theorem parsePair_pairStr {p : String × String} (hk : '=' ∉ p.1.data) :
    parsePairChars (pairStr p).data = p := by
  rw [pairStr_data, parsePairChars, splitAtFirst_append hk]

theorem amp_not_mem_pairStr {p : String × String}
    (h1 : '&' ∉ p.1.data) (h2 : '&' ∉ p.2.data) : '&' ∉ (pairStr p).data := by
  rw [pairStr_data]
  intro hm
  rcases List.mem_append.mp hm with hA | hB
  · exact h1 hA
  · rcases List.mem_cons.mp hB with he | hC
    · exact absurd he (by decide)
    · exact h2 hC

theorem parseQuery_queryStr : ∀ (ps : List (String × String)), ps ≠ [] →
    (∀ p ∈ ps, ('&' ∉ p.1.data ∧ '=' ∉ p.1.data) ∧ '&' ∉ p.2.data) →
    parseQueryChars (queryStr ps).data = ps := by
  intro ps
  induction ps with
  | nil => intro h; exact absurd rfl h
  | cons p rest ih =>
    intro _ hcl
    cases rest with
    | nil =>
      obtain ⟨⟨ha1, he1⟩, ha2⟩ := hcl p (List.mem_cons_self p [])
      rw [queryStr, parseQueryChars, splitAll_not_mem (amp_not_mem_pairStr ha1 ha2),
        List.map_cons, List.map_nil, parsePair_pairStr he1]
    | cons q rest2 =>
      obtain ⟨⟨ha1, he1⟩, ha2⟩ := hcl p (List.mem_cons_self p (q :: rest2))
      have hql : (queryStr (p :: q :: rest2)).data
          = (pairStr p).data ++ '&' :: (queryStr (q :: rest2)).data := by
        simp only [queryStr]
        rw [String.data_append, String.data_append, List.append_assoc]
        rfl
      have hrec := ih (by simp) (fun r hr => hcl r (List.mem_cons_of_mem p hr))
      rw [parseQueryChars] at hrec
      rw [parseQueryChars, hql, splitAll_append (amp_not_mem_pairStr ha1 ha2),
        List.map_cons, parsePair_pairStr he1, hrec]

/-! ## The parse/print round trip -/

theorem mk_data_eq (s : String) : (⟨s.data⟩ : String) = s := rfl

theorem data_eq_nil_iff (s : String) : s.data = [] ↔ s = "" := by
  constructor
  · intro h; cases s; cases h; rfl
  · intro h; rw [h]

theorem parseURL_urlString {u : URL} (hwf : wfURL u = true) (hq : u.query ≠ some []) :
    parseURL (urlString u) = some u := by
  obtain ⟨sch, ho, pa, qu⟩ := u
  simp only [wfURL, Bool.and_eq_true] at hwf
  obtain ⟨⟨⟨⟨w1, w2⟩, w3⟩, w4⟩, w5⟩ := hwf
  cases ho with
  | none => exact absurd w2 (by simp [hostOK])
  | some hst =>
  have hinfo : hst ≠ "" ∧ '/' ∉ hst.data ∧ '?' ∉ hst.data := by
    simp only [hostOK, Bool.and_eq_true] at w2
    obtain ⟨⟨hne, h1⟩, h2⟩ := w2
    refine ⟨by simpa using hne, (noCharB_iff hst '/').mp h1, (noCharB_iff hst '?').mp h2⟩
  obtain ⟨hne, hsl, hqm⟩ := hinfo
  have hcolon : ':' ∉ sch.data := (noCharB_iff _ _).mp w1
  have hpq : '?' ∉ pa.data := (noCharB_iff _ _).mp w3
  have hhd : hst.data ≠ [] := fun hc => hne ((data_eq_nil_iff hst).mp hc)
  have hps : pa.data = [] ∨ ∃ r, pa.data = '/' :: r := by
    cases hpd : pa.data with
    | nil => exact Or.inl rfl
    | cons c r =>
      rw [hpd] at w4
      simp [pathShape] at w4
      exact Or.inr ⟨r, by rw [w4]⟩
  have hnoq : '?' ∉ hst.data ++ pa.data := by
    intro hm
    rcases List.mem_append.mp hm with hA | hB
    · exact hqm hA
    · exact hpq hB
  cases qu with
  | none =>
    have e1 : (urlString ⟨sch, some hst, pa, none⟩).data
        = sch.data ++ ':' :: '/' :: '/' :: (hst.data ++ pa.data) := by
      rw [urlString_data]
      simp
    rw [parseURL, e1, splitAtFirst_append hcolon]
    rcases hps with hpa | ⟨r, hpa⟩
    · have hpe : pa = "" := (data_eq_nil_iff pa).mp hpa
      rw [hpa, List.append_nil, hpe]
      have s1 : splitAtFirst '?' hst.data = (hst.data, none) := splitAtFirst_not_mem hqm
      have s2 : splitAtFirst '/' hst.data = (hst.data, none) := splitAtFirst_not_mem hsl
      simp only [s1, s2, if_neg hhd, mk_data_eq]
    · rw [hpa]
      have s1 : splitAtFirst '?' (hst.data ++ '/' :: r) = (hst.data ++ '/' :: r, none) :=
        splitAtFirst_not_mem (hpa ▸ hnoq)
      have s2 : splitAtFirst '/' (hst.data ++ '/' :: r) = (hst.data, some r) :=
        splitAtFirst_append hsl
      simp only [s1, s2, if_neg hhd, mk_data_eq]
      rw [show (⟨'/' :: r⟩ : String) = pa from by rw [← hpa]]
  | some ps =>
    have hpsne : ps ≠ [] := fun hc => hq (by rw [hc])
    have hcl : ∀ p ∈ ps, ('&' ∉ p.1.data ∧ '=' ∉ p.1.data) ∧ '&' ∉ p.2.data := by
      intro p hp
      have hall := (List.all_eq_true.mp w5) p hp
      simp only [cleanKey, cleanVal, Bool.and_eq_true, noCharB_iff] at hall
      obtain ⟨⟨⟨k1, k2⟩, k3⟩, v1, v2⟩ := hall
      exact ⟨⟨k1, k2⟩, v1⟩
    have e1 : (urlString ⟨sch, some hst, pa, some ps⟩).data
        = sch.data ++ ':' :: '/' :: '/' :: ((hst.data ++ pa.data) ++ '?' :: (queryStr ps).data) := by
      rw [urlString_data]
      rfl
    rw [parseURL, e1, splitAtFirst_append hcolon]
    rcases hps with hpa | ⟨r, hpa⟩
    · have hpe : pa = "" := (data_eq_nil_iff pa).mp hpa
      rw [hpa, List.append_nil]
      have s1 : splitAtFirst '?' (hst.data ++ '?' :: (queryStr ps).data)
          = (hst.data, some (queryStr ps).data) := splitAtFirst_append hqm
      have s2 : splitAtFirst '/' hst.data = (hst.data, none) := splitAtFirst_not_mem hsl
      simp only [s1, s2, if_neg hhd, mk_data_eq, parseQuery_queryStr ps hpsne hcl, hpe]
    · rw [hpa]
      have s1 : splitAtFirst '?' ((hst.data ++ '/' :: r) ++ '?' :: (queryStr ps).data)
          = (hst.data ++ '/' :: r, some (queryStr ps).data) :=
        splitAtFirst_append (by intro hm; exact (hpa ▸ hnoq) hm)
      have s2 : splitAtFirst '/' (hst.data ++ '/' :: r) = (hst.data, some r) :=
        splitAtFirst_append hsl
      simp only [s1, s2, if_neg hhd, mk_data_eq, parseQuery_queryStr ps hpsne hcl]
      rw [show (⟨'/' :: r⟩ : String) = pa from by rw [← hpa]]

/-! ## Well-formedness is preserved by the dispatch -/

theorem wfURL_of_parts {u v : URL} (hwf : wfURL u = true)
    (hs : v.scheme = u.scheme) (hh : v.host = u.host) (hp : v.path = u.path)
    (hq : ∀ p ∈ queryPairs v, p ∈ queryPairs u) : wfURL v = true := by
  simp only [wfURL, Bool.and_eq_true] at hwf ⊢
  obtain ⟨⟨⟨⟨w1, w2⟩, w3⟩, w4⟩, w5⟩ := hwf
  refine ⟨⟨⟨⟨?_, ?_⟩, ?_⟩, ?_⟩, ?_⟩
  · rw [hs]; exact w1
  · rw [hh]; exact w2
  · rw [hp]; exact w3
  · rw [hp]; exact w4
  · rw [List.all_eq_true] at w5 ⊢
    exact fun p hp2 => w5 p (hq p hp2)

theorem wf_strip_params {u : URL} (hwf : wfURL u = true) (s : List String) :
    wfURL (strip_params u s) = true :=
  wfURL_of_parts hwf (strip_params_scheme u s) (strip_params_host u s)
    (strip_params_path u s)
    (fun p hp => List.mem_of_mem_filter (strip_params_queryPairs u s ▸ hp))

theorem pair_clean_of_mem {u : URL} (hwf : wfURL u = true) {p : String × String}
    (hp : p ∈ queryPairs u) :
    ('&' ∉ p.1.data ∧ '=' ∉ p.1.data ∧ '?' ∉ p.1.data) ∧
      ('&' ∉ p.2.data ∧ '?' ∉ p.2.data) := by
  simp only [wfURL, Bool.and_eq_true] at hwf
  obtain ⟨-, w5⟩ := hwf
  have hall := (List.all_eq_true.mp w5) p hp
  simp only [cleanKey, cleanVal, Bool.and_eq_true, noCharB_iff] at hall
  obtain ⟨⟨⟨k1, k2⟩, k3⟩, v1, v2⟩ := hall
  exact ⟨⟨k1, k2, k3⟩, v1, v2⟩

theorem wfURL_ytrewrite {u : URL} (hwf : wfURL u = true) {vid : String}
    (hvid : '?' ∉ vid.data) :
    wfURL { u with host := some "youtu.be", path := "/" ++ vid } = true := by
  simp only [wfURL, Bool.and_eq_true] at hwf ⊢
  obtain ⟨⟨⟨⟨w1, w2⟩, w3⟩, w4⟩, w5⟩ := hwf
  have hdata : ("/" ++ vid).data = '/' :: vid.data := by
    rw [String.data_append]
    rfl
  refine ⟨⟨⟨⟨w1, by decide⟩, ?_⟩, ?_⟩, w5⟩
  · rw [noCharB_iff, hdata]
    intro hm
    rcases List.mem_cons.mp hm with he | hC
    · exact absurd he (by decide)
    · exact hvid hC
  · rw [hdata]
    rfl

theorem gqv_value_mem {u : URL} {k x : String} (h : get_query_value u k = some x) :
    ∃ p ∈ queryPairs u, p.2 = x := by
  rw [get_query_value] at h
  cases hf : (queryPairs u).find? (fun p => p.1 == k) with
  | none => rw [hf] at h; exact absurd h (by simp)
  | some p =>
    rw [hf] at h
    simp only [Option.map_some'] at h
    exact ⟨p, List.mem_of_find?_eq_some hf, Option.some.inj h⟩

theorem seg_no_qmark {u : URL} (hpq : '?' ∉ u.path.data) (pre : String) :
    '?' ∉ ((⟨(splitAtFirst '/' (u.path.data.drop pre.length)).1⟩ : String)).data :=
  fun hm => hpq (List.mem_of_mem_drop (splitAtFirst_fst_subset hm))

theorem strip_tracking_wfOut {cfg : Option String} {u v : URL}
    (hwf : wfURL u = true) (h : strip_tracking cfg u = some v) :
    wfURL v = true ∧ v.query ≠ some [] ∧ v.scheme = u.scheme := by
  cases hd : URL.domain u with
  | none => rw [strip_tracking_no_domain hd] at h; exact absurd h (by simp)
  | some d =>
    by_cases hyt : d = "www.youtube.com" ∨ d = "youtube.com"
    · rw [strip_tracking_youtube hd hyt] at h
      cases hm : find_prefix_match u (enabled_prefixes cfg) with
      | some w =>
        rw [strip_full_youtube_rec hm] at h
        obtain ⟨pre, hmem, hpre, hw⟩ := find_prefix_match_shape hm
        have hwq : '?' ∉ u.path.data := by
          have h2 := hwf
          simp only [wfURL, Bool.and_eq_true, noCharB_iff] at h2
          exact h2.1.1.2
        have hwfw : wfURL w = true := by
          rw [hw]
          exact wfURL_ytrewrite hwf (seg_no_qmark hwq pre)
        have hwhost : w.host = some "youtu.be" := by rw [hw]
        rw [strip_tracking_si (domain_of_host hwhost (by decide)) (Or.inl rfl)] at h
        obtain rfl := Option.some.inj h
        refine ⟨wf_strip_params hwfw _, strip_params_query_ne_some_nil w _, ?_⟩
        rw [strip_params_scheme, hw]
      | none =>
        cases hv : get_query_value u "v" with
        | some vid =>
          rw [strip_full_youtube_v hm hv] at h
          obtain rfl := Option.some.inj h
          obtain ⟨p, hpmem, hpv⟩ := gqv_value_mem hv
          have hvid : '?' ∉ vid.data := by
            have h2 := (pair_clean_of_mem hwf hpmem).2.2
            rw [hpv] at h2
            exact h2
          have hwfw : wfURL { u with host := some "youtu.be", path := "/" ++ vid } = true :=
            wfURL_ytrewrite hwf hvid
          exact ⟨wf_strip_params hwfw _, strip_params_query_ne_some_nil _ _,
            by rw [strip_params_scheme]⟩
        | none =>
          rw [strip_full_youtube_plain hm hv] at h
          obtain rfl := Option.some.inj h
          exact ⟨wf_strip_params hwf _, strip_params_query_ne_some_nil _ _,
            strip_params_scheme u _⟩
    · by_cases hsi : d = "youtu.be" ∨ d = "music.youtube.com"
      · rw [strip_tracking_si hd hsi] at h
        obtain rfl := Option.some.inj h
        exact ⟨wf_strip_params hwf _, strip_params_query_ne_some_nil _ _,
          strip_params_scheme u _⟩
      · push_neg at hyt hsi
        rw [strip_tracking_common hd hyt.1 hyt.2 hsi.1 hsi.2] at h
        obtain rfl := Option.some.inj h
        exact ⟨wf_strip_params hwf _, strip_params_query_ne_some_nil _ _,
          strip_params_scheme u _⟩

/-! ## Claim C8: round-trip stability and scheme retention -/

/-- C8: on every well-formed URL with a domain, the dispatch succeeds, its
result re-parses (from its string form) to the identical structured value,
and the scheme is retained. -/
theorem claim_C8 (cfg : Option String) (u : URL) (d : String)
    (hd : URL.domain u = some d) (hwf : wfURL u = true) :
    ∃ v, strip_tracking cfg u = some v ∧ parseURL (urlString v) = some v ∧
      v.scheme = u.scheme := by
  obtain ⟨v, hv⟩ := Option.isSome_iff_exists.mp (@strip_tracking_isSome cfg u d hd)
  obtain ⟨hwv, hne, hsch⟩ := strip_tracking_wfOut hwf hv
  exact ⟨v, hv, parseURL_urlString hwv hne, hsch⟩

/-- C8 witness: the watch-page scenario URL round-trips after stripping. -/
theorem claim_C8_witness :
    ∃ v, strip_tracking none exWatch = some v ∧ parseURL (urlString v) = some v ∧
      v.scheme = exWatch.scheme :=
  claim_C8 none exWatch "www.youtube.com" rfl (by decide)
